import Mathlib

/-!
Shallow embedding of the UTF8Converter repository (Takor0/UTF8Converter).

Paths are modelled as lists of components (POSIX, case-sensitive).  The
filesystem is an explicit association list from paths to entries (regular
file with byte content, or directory); every function with filesystem side
effects threads the `FS` state explicitly.  OS-level failures (permissions,
disk full, a parent existing as a non-directory file) are outside the model,
matching the spec's separate `OutputWriteError` bucket.  Machine text is a
list of Unicode scalar values (`List Nat`), bytes are `List Nat` with values
below 256 where it matters.
-/

namespace UTF8Conv

/-- File path, root-to-leaf list of name components (POSIX semantics). -/
abbrev FPath := List String

/-- Last component of a path, `""` for the empty path (Python `Path.name`). -/
def pathName (p : FPath) : String := p.getLastD ""

/-- Index of the last `'.'` in a character list, if any. -/
def lastDotIdx (cs : List Char) : Option Nat :=
  match cs.reverse.findIdx? (fun c => c = '.') with
  | some j => some (cs.length - 1 - j)
  | none => none

/-- Suffix of a file name following CPython `PurePath.suffix`: the part of
the name from the last dot on, provided that dot is neither the first nor
the last character; otherwise the empty string. -/
def pySuffix (name : String) : String :=
  let cs := name.toList
  match lastDotIdx cs with
  | some i => if 0 < i ∧ i + 1 < cs.length then String.mk (cs.drop i) else ""
  | none => ""

/-- ASCII lowercasing of a string, as Python `str.lower` acts on the ASCII
extension suffixes this program compares. -/
def strLower (s : String) : String := String.mk (s.toList.map Char.toLower)

/-- Filesystem entry: a regular file with byte content, or a directory. -/
inductive Entry
  | file : List Nat → Entry
  | dir : Entry
deriving DecidableEq, Repr

/-- Filesystem state: an association list from paths to entries. -/
structure FS where
  entries : List (FPath × Entry)
deriving DecidableEq, Repr

/-- Entry stored at a path, if any. -/
def FS.lookup (fs : FS) (p : FPath) : Option Entry :=
  (fs.entries.find? (fun e => e.1 = p)).map (fun e => e.2)

/-- Python `Path.exists()`. -/
def FS.pathExists (fs : FS) (p : FPath) : Bool := (fs.lookup p).isSome

/-- Python `Path.is_dir()`. -/
def FS.isDir (fs : FS) (p : FPath) : Bool := fs.lookup p = some Entry.dir

/-- Python `Path.is_file()`. -/
def FS.isFile (fs : FS) (p : FPath) : Bool :=
  match fs.lookup p with
  | some (Entry.file _) => true
  | _ => false

/-- Byte content of the regular file at a path, if there is one. -/
def FS.readFile (fs : FS) (p : FPath) : Option (List Nat) :=
  match fs.lookup p with
  | some (Entry.file c) => some c
  | _ => none

/-- Store an entry at a path, replacing any previous entry. -/
def FS.set (fs : FS) (p : FPath) (e : Entry) : FS :=
  ⟨(p, e) :: fs.entries.filter (fun q => q.1 ≠ p)⟩

/-- Python `Path.write_text` target state: overwrite the file at `p`. -/
def FS.writeFile (fs : FS) (p : FPath) (content : List Nat) : FS :=
  fs.set p (Entry.file content)

/-- Create each listed path as a directory unless something already exists
there (the `exist_ok=True` success path of `mkdir`). -/
def FS.mkdirList (fs : FS) : List FPath → FS
  | [] => fs
  | q :: rest =>
    (if (fs.lookup q).isSome then fs else fs.set q Entry.dir).mkdirList rest

/-- Nonempty initial segments of a path, shortest first. -/
def ancestorsOf (p : FPath) : List FPath :=
  (List.range p.length).map (fun i => p.take (i + 1))

/-- Python `Path.mkdir(parents=True, exist_ok=True)` on the success path:
create the path and all its missing ancestors as directories. -/
def FS.mkdirParents (fs : FS) (p : FPath) : FS :=
  fs.mkdirList (ancestorsOf p)

/-- Direct children of a directory path present in the filesystem, in
entry-list order (the model's stand-in for OS directory enumeration order). -/
def FS.children (fs : FS) (p : FPath) : List FPath :=
  (fs.entries.map (fun e => e.1)).filter
    (fun q => q.dropLast = p ∧ q.length = p.length + 1)

/-- Modelled from the spec: `converter/constants.py` is not present under
src/; the spec fixes the allowed extension set to `.txt` and the duplicate
module `main2.py` defines `ALLOWED_EXTENSIONS = {".txt"}`. -/
def ALLOWED_EXTENSIONS : List String := [".txt"]

/-- Modelled from the spec: `converter/constants.py` is not present under
src/; the spec gives `sample_size` default 102400 and `main2.py` defines
`SAMPLE_SIZE = 1024 * 100`. -/
def SAMPLE_SIZE : Nat := 1024 * 100

/-- Typed counterparts of the exceptions the program raises. -/
inductive ConvError
  | notFound
  | isDirectory
  | invalidExtension
  | encodingUndetected
  | decodeError
  | ioError
deriving DecidableEq, Repr

/-- Embedding of `validate_input_file` (src/converter/utils.py): reject a
missing path, a non-file, or a disallowed suffix; otherwise return the path
unchanged.  No filesystem mutation. -/
def validate_input_file (fs : FS) (src : FPath) : Except ConvError FPath :=
  if ¬ fs.pathExists src then Except.error ConvError.notFound
  else if ¬ fs.isFile src then Except.error ConvError.isDirectory
  else if strLower (pySuffix (pathName src)) ∉ ALLOWED_EXTENSIONS then
    Except.error ConvError.invalidExtension
  else Except.ok src

/-- Embedding of `prepare_output_path` (src/converter/utils.py).  The state
is threaded explicitly: the returned `FS` is the filesystem after the call,
also when the call raises.  `srcName` is `src.name` of the validated input. -/
def prepare_output_path (fs : FS) (srcName : String) (dst : FPath)
    (create_output_dir : Bool) : FS × Except ConvError FPath :=
  if pySuffix (pathName dst) ≠ "" ∧
      strLower (pySuffix (pathName dst)) ∉ ALLOWED_EXTENSIONS then
    (fs, Except.error ConvError.invalidExtension)
  else
    let (fs1, output_file) :=
      if fs.pathExists dst ∧ fs.isDir dst then
        (fs, dst ++ [srcName])
      else if create_output_dir ∧ ¬ fs.pathExists dst then
        (fs.mkdirParents dst, dst ++ [srcName])
      else
        (fs.mkdirParents dst.dropLast, dst)
    if strLower (pySuffix (pathName output_file)) ∉ ALLOWED_EXTENSIONS then
      (fs1, Except.error ConvError.invalidExtension)
    else (fs1, Except.ok output_file)

/-- UTF-8 encoding of one Unicode scalar value (CPython's strict `utf-8`
encoder on the scalar values produced by its strict decoder). -/
def utf8EncodeChar (c : Nat) : List Nat :=
  if c < 0x80 then [c]
  else if c < 0x800 then [0xC0 + c / 64, 0x80 + c % 64]
  else if c < 0x10000 then
    [0xE0 + c / 4096, 0x80 + (c / 64) % 64, 0x80 + c % 64]
  else
    [0xF0 + c / 262144, 0x80 + (c / 4096) % 64, 0x80 + (c / 64) % 64,
      0x80 + c % 64]

/-- UTF-8 encoding of a text (list of scalar values). -/
def utf8Encode : List Nat → List Nat
  | [] => []
  | c :: rest => utf8EncodeChar c ++ utf8Encode rest

/-- Continuation byte test (`0x80 ≤ b < 0xC0`). -/
def isCont (b : Nat) : Bool := decide (0x80 ≤ b) && decide (b < 0xC0)

/-- Decoding of one UTF-8 sequence: lead byte, remaining bytes, and on
success the scalar value plus the bytes after the sequence.  Strict as
CPython's `utf-8` codec: continuation bytes and the overlong leads
`0xC0`/`0xC1` are rejected as leads, overlong forms, surrogates and values
above `0x10FFFF` are rejected, leads `0xF5`-`0xFF` are rejected. -/
def utf8DecodeOne (b : Nat) (rest : List Nat) : Option (Nat × List Nat) :=
  if b < 0x80 then some (b, rest)
  else if b < 0xC2 then none
  else if b < 0xE0 then
    match rest with
    | b1 :: rest1 =>
      if isCont b1 then some ((b - 0xC0) * 64 + (b1 - 0x80), rest1) else none
    | [] => none
  else if b < 0xF0 then
    match rest with
    | b1 :: b2 :: rest2 =>
      if isCont b1 && isCont b2 then
        if (b - 0xE0) * 4096 + (b1 - 0x80) * 64 + (b2 - 0x80) < 0x800 ∨
            (0xD800 ≤ (b - 0xE0) * 4096 + (b1 - 0x80) * 64 + (b2 - 0x80) ∧
              (b - 0xE0) * 4096 + (b1 - 0x80) * 64 + (b2 - 0x80) < 0xE000) then
          none
        else some ((b - 0xE0) * 4096 + (b1 - 0x80) * 64 + (b2 - 0x80), rest2)
      else none
    | _ => none
  else if b < 0xF5 then
    match rest with
    | b1 :: b2 :: b3 :: rest3 =>
      if isCont b1 && isCont b2 && isCont b3 then
        if (b - 0xF0) * 262144 + (b1 - 0x80) * 4096 + (b2 - 0x80) * 64 +
              (b3 - 0x80) < 0x10000 ∨
            0x110000 ≤ (b - 0xF0) * 262144 + (b1 - 0x80) * 4096 +
              (b2 - 0x80) * 64 + (b3 - 0x80) then
          none
        else
          some ((b - 0xF0) * 262144 + (b1 - 0x80) * 4096 + (b2 - 0x80) * 64 +
            (b3 - 0x80), rest3)
      else none
    | _ => none
  else none

/-- Iterated UTF-8 decoding with a step budget.  Every step consumes at
least one byte, so a budget of the list's length never runs out; the budget
makes the recursion structural without changing the decoded value. -/
def utf8DecodeFuel : Nat → List Nat → Option (List Nat)
  | _, [] => some []
  | 0, _ :: _ => none
  | fuel + 1, b :: rest =>
    match utf8DecodeOne b rest with
    | none => none
    | some (c, rest1) => (utf8DecodeFuel fuel rest1).map (fun t => c :: t)

/-- Strict UTF-8 decoding of a byte list to a list of scalar values, as
CPython's `utf-8` codec with `errors="strict"`. -/
def pyUtf8Decode (l : List Nat) : Option (List Nat) := utf8DecodeFuel l.length l

/-- Universal-newline translation performed by Python text-mode reading
(`newline=None`): `"\r\n"` and a lone `"\r"` both become `"\n"`. -/
def univNewlines : List Nat → List Nat
  | [] => []
  | a :: rest =>
    if a = 13 then
      match rest with
      | b :: rest1 =>
        if b = 10 then 10 :: univNewlines rest1 else 10 :: univNewlines (b :: rest1)
      | [] => [10]
    else a :: univNewlines rest

/-- Codec family: decoding function per encoding label, `none` when the
bytes are not well-formed under the label (or the label is unknown). -/
abbrev Codecs := String → List Nat → Option (List Nat)

/-- Detection heuristic (`chardet.detect` followed by the two `.get` calls):
byte sample to optional label and confidence.  Treated as a parameter, as
the spec treats the heuristic as a pluggable external capability. -/
abbrev Detector := List Nat → Option String × ℚ

/-- Python truthiness of the optional encoding attribute: `None` and the
empty string are falsy. -/
def strOptTruthy : Option String → Bool
  | none => false
  | some s => !s.isEmpty

/-- Byte sample taken by `encoding_confidence` (src/converter/converter.py
lines 35-39): the whole file when its size is at most `sample_size`, else
exactly the first `sample_size` bytes. -/
def sampleBytes (bytes : List Nat) (sample_size : Nat) : List Nat :=
  if bytes.length ≤ sample_size then bytes else bytes.take sample_size

/-- Task state of one `UTF8Converter` instance after construction: validated
input path, resolved output path, sample size and optional forced encoding. -/
structure ConvTask where
  input : FPath
  output : FPath
  sampleSize : Nat
  encoding : Option String
deriving DecidableEq, Repr

/-- Embedding of the `UTF8Converter.encoding_confidence` property
(src/converter/converter.py): the forced encoding with confidence 1.0 when
it is truthy, else the detector applied to the byte sample.  `none` models
the OS error raised when the input file cannot be read. -/
def encoding_confidence (detect : Detector) (fs : FS) (t : ConvTask) :
    Option (Option String × ℚ) :=
  if strOptTruthy t.encoding then some (t.encoding, 1)
  else
    match fs.readFile t.input with
    | none => none
    | some bytes => some (detect (sampleBytes bytes t.sampleSize))

/-- Embedding of `UTF8Converter.convert` (src/converter/converter.py):
detect or take the forced encoding; raise if the label is falsy; read and
decode the whole file (with universal-newline translation, as `read_text`
does); write the UTF-8 encoding of the text to the output path.  The
returned `FS` is the filesystem after the call, also when it raises;
`write_text` on POSIX performs no newline translation on output. -/
def convert (codecs : Codecs) (detect : Detector) (fs : FS) (t : ConvTask) :
    FS × Except ConvError Unit :=
  match encoding_confidence detect fs t with
  | none => (fs, Except.error ConvError.ioError)
  | some (enc?, _conf) =>
    if ¬ strOptTruthy enc? then (fs, Except.error ConvError.encodingUndetected)
    else
      match enc?, fs.readFile t.input with
      | some enc, some bytes =>
        match codecs enc bytes with
        | none => (fs, Except.error ConvError.decodeError)
        | some text =>
          (fs.writeFile t.output (utf8Encode (univNewlines text)),
            Except.ok ())
      | _, _ => (fs, Except.error ConvError.ioError)

/-- Outcome view of one task: `none` is success, `some e` a failed outcome. -/
def errOf : Except ConvError Unit → Option ConvError
  | Except.ok _ => none
  | Except.error e => some e

/-- Embedding of `batch_processing` (src/converter/batch.py): every
converter's `convert` runs; an exception is caught and logged, and the
progress sink is advanced in `finally` on both paths.  Returns the final
filesystem, the number of progress-sink advances, and the per-task outcome
list.  The model fixes submission order; the claims settled over it do not
depend on completion order, which the scheduler leaves unspecified. -/
def batch_processing (codecs : Codecs) (detect : Detector) (fs : FS) :
    List ConvTask → FS × Nat × List (Option ConvError)
  | [] => (fs, 0, [])
  | t :: rest =>
    let step := convert codecs detect fs t
    let (fs2, n, outs) := batch_processing codecs detect step.1 rest
    (fs2, n + 1, errOf step.2 :: outs)

/-- Construction of one `UTF8Converter` instance (`__init__`,
src/converter/converter.py lines 12-25): validate the input, resolve the
output path (with its filesystem side effects), and record the task state. -/
def mkConverter (fs : FS) (input_file : FPath) (output_file : FPath)
    (sample_size : Nat) (create_output_dir : Bool) (encoding : Option String) :
    FS × Except ConvError ConvTask :=
  match validate_input_file fs input_file with
  | Except.error e => (fs, Except.error e)
  | Except.ok inp =>
    let pr := prepare_output_path fs (pathName inp) output_file
      create_output_dir
    match pr.2 with
    | Except.error e => (pr.1, Except.error e)
    | Except.ok out =>
      (pr.1, Except.ok
        { input := inp, output := out, sampleSize := sample_size,
          encoding := encoding })

/-- Name filter of `path.glob("*.txt")`: fnmatch of the literal pattern,
case-sensitive on POSIX, so exactly the names ending in `".txt"`. -/
def matchesGlobTxt (n : String) : Bool := ".txt".toList.isSuffixOf n.toList

/-- Entries `path.glob("*.txt")` yields: direct children of the directory
whose name matches the pattern (non-recursive, single level). -/
def globTxt (fs : FS) (p : FPath) : List FPath :=
  (fs.children p).filter (fun q => matchesGlobTxt (pathName q))

/-- Directory branch of `make_converters`: build one converter per globbed
entry, in order; the first constructor exception aborts the comprehension. -/
def makeList (fs : FS) (dst : FPath) (sample_size : Nat)
    (create_output_dir : Bool) (encoding : Option String) :
    List FPath → FS × Except ConvError (List ConvTask)
  | [] => (fs, Except.ok [])
  | f :: rest =>
    let mc := mkConverter fs f dst sample_size create_output_dir encoding
    match mc.2 with
    | Except.error e => (mc.1, Except.error e)
    | Except.ok t =>
      let ml := makeList mc.1 dst sample_size create_output_dir encoding rest
      match ml.2 with
      | Except.error e => (ml.1, Except.error e)
      | Except.ok ts => (ml.1, Except.ok (t :: ts))

/-- Embedding of `make_converters` (src/converter/batch.py lines 47-84).
When the source is a directory each globbed entry becomes a converter and
receives `encoding=encoding`; in the single-file branch the source omits the
`encoding` argument, so the converter is built with the default `None`. -/
def make_converters (fs : FS) (src : FPath) (dst : FPath) (sample_size : Nat)
    (create_output_dir : Bool) (encoding : Option String) :
    FS × Except ConvError (List ConvTask) :=
  if fs.isDir src then
    makeList fs dst sample_size create_output_dir encoding (globTxt fs src)
  else
    let mc := mkConverter fs src dst sample_size create_output_dir none
    match mc.2 with
    | Except.error e => (mc.1, Except.error e)
    | Except.ok t => (mc.1, Except.ok [t])

example : pyUtf8Decode [97, 13, 10] = some [97, 13, 10] := by decide
example : pyUtf8Decode [0xC3, 0xA9] = some [0xE9] := by decide
example : pyUtf8Decode [0xC0, 0x80] = none := by decide
example : pyUtf8Decode [0xED, 0xA0, 0x80] = none := by decide
example : pyUtf8Decode [0xF0, 0x9F, 0x98, 0x80] = some [0x1F600] := by decide
example : univNewlines [97, 13, 10, 98, 13, 99] = [97, 10, 98, 10, 99] := by decide
example : utf8Encode [0xE9, 0x1F600] = [0xC3, 0xA9, 0xF0, 0x9F, 0x98, 0x80] := by decide

example : pySuffix "file.txt" = ".txt" := by decide
example : pySuffix "file" = "" := by decide
example : pySuffix ".txt" = "" := by decide
example : pySuffix "a." = "" := by decide
example : pySuffix "a.tar.gz" = ".gz" := by decide
example : strLower ".TXT" = ".txt" := by decide

/-- Decoding one UTF-8 sequence inverts encoding of the produced scalar,
leaves a suffix of the remaining input, and produces either the lead byte
itself (ASCII) or a scalar of at least `0x80`. -/
theorem utf8DecodeOne_spec {b c : Nat} {rest rest1 : List Nat}
    (h : utf8DecodeOne b rest = some (c, rest1)) :
    utf8EncodeChar c ++ rest1 = b :: rest ∧ rest1 <:+ rest ∧
      (c = b ∨ 0x80 ≤ c) := by
  unfold utf8DecodeOne at h
  split_ifs at h with h1 h2 h3 h4 h5
  · obtain ⟨rfl, rfl⟩ : b = c ∧ rest = rest1 := by
      simpa [Prod.ext_iff] using h
    refine ⟨?_, List.suffix_refl _, Or.inl rfl⟩
    rw [utf8EncodeChar, if_pos h1]
    rfl
  · split at h
    · rename_i b1 rest'
      split_ifs at h with hc
      · have h' : (b - 0xC0) * 64 + (b1 - 0x80) = c ∧ rest' = rest1 := by
          simpa [Prod.ext_iff] using h
        obtain ⟨hcv, rfl⟩ := h'
        subst hcv
        simp only [isCont, Bool.and_eq_true, decide_eq_true_eq] at hc
        refine ⟨?_, List.suffix_cons _ _, Or.inr (by omega)⟩
        rw [utf8EncodeChar, if_neg (by omega), if_pos (by omega)]
        simp only [List.cons_append, List.nil_append, List.cons.injEq]
        exact ⟨by omega, by omega, trivial⟩
    · exact Option.noConfusion h
  · split at h
    · rename_i b1 b2 rest'
      split_ifs at h with hc hr
      · have h' :
            (b - 0xE0) * 4096 + (b1 - 0x80) * 64 + (b2 - 0x80) = c ∧
              rest' = rest1 := by
          simpa [Prod.ext_iff] using h
        obtain ⟨hcv, rfl⟩ := h'
        subst hcv
        simp only [isCont, Bool.and_eq_true, decide_eq_true_eq] at hc
        refine ⟨?_, ?_, Or.inr (by omega)⟩
        · rw [utf8EncodeChar, if_neg (by omega), if_neg (by omega),
            if_pos (by omega)]
          simp only [List.cons_append, List.nil_append, List.cons.injEq]
          exact ⟨by omega, by omega, by omega, trivial⟩
        · exact (List.suffix_cons _ _).trans (List.suffix_cons _ _)
    · exact Option.noConfusion h
  · split at h
    · rename_i b1 b2 b3 rest'
      split_ifs at h with hc hr
      · have h' :
            (b - 0xF0) * 262144 + (b1 - 0x80) * 4096 + (b2 - 0x80) * 64 +
              (b3 - 0x80) = c ∧ rest' = rest1 := by
          simpa [Prod.ext_iff] using h
        obtain ⟨hcv, rfl⟩ := h'
        subst hcv
        simp only [isCont, Bool.and_eq_true, decide_eq_true_eq] at hc
        refine ⟨?_, ?_, Or.inr (by omega)⟩
        · rw [utf8EncodeChar, if_neg (by omega), if_neg (by omega),
            if_neg (by omega)]
          simp only [List.cons_append, List.nil_append, List.cons.injEq]
          exact ⟨by omega, by omega, by omega, by omega, trivial⟩
        · exact ((List.suffix_cons _ _).trans
            (List.suffix_cons _ _)).trans (List.suffix_cons _ _)
    · exact Option.noConfusion h

/-- Re-encoding a successfully decoded byte list yields the original bytes,
provided the step budget covers the list. -/
theorem utf8Encode_decodeFuel :
    ∀ fuel l t, l.length ≤ fuel → utf8DecodeFuel fuel l = some t →
      utf8Encode t = l := by
  intro fuel
  induction fuel with
  | zero =>
    intro l t hl h
    match l with
    | [] =>
      rw [show utf8DecodeFuel 0 [] = some [] from rfl] at h
      cases h
      rfl
    | b :: rest => simp at hl
  | succ n ih =>
    intro l t hl h
    match l with
    | [] =>
      rw [show utf8DecodeFuel (n + 1) [] = some [] from rfl] at h
      cases h
      rfl
    | b :: rest =>
      rw [utf8DecodeFuel] at h
      cases hdec : utf8DecodeOne b rest with
      | none => rw [hdec] at h; exact Option.noConfusion h
      | some pr =>
        obtain ⟨c, rest1⟩ := pr
        rw [hdec, Option.map_eq_some'] at h
        obtain ⟨t1, hd, rfl⟩ := h
        obtain ⟨henc, hsuf, _⟩ := utf8DecodeOne_spec hdec
        have hlen : rest1.length ≤ n := by
          have := hsuf.length_le
          simp at hl
          omega
        simp only [utf8Encode, ih rest1 t1 hlen hd, henc]

/-- Re-encoding a successfully decoded byte list yields the original bytes. -/
theorem utf8Encode_pyUtf8Decode {l t : List Nat} (h : pyUtf8Decode l = some t) :
    utf8Encode t = l :=
  utf8Encode_decodeFuel l.length l t (Nat.le_refl _) h

/-- Decoding bytes free of `0x0D` yields text free of the scalar 13. -/
theorem decodeFuel_no_cr :
    ∀ fuel l t, l.length ≤ fuel → utf8DecodeFuel fuel l = some t →
      13 ∉ l → 13 ∉ t := by
  intro fuel
  induction fuel with
  | zero =>
    intro l t hl h hcr
    match l with
    | [] =>
      rw [show utf8DecodeFuel 0 [] = some [] from rfl] at h
      cases h
      simp
    | b :: rest => simp at hl
  | succ n ih =>
    intro l t hl h hcr
    match l with
    | [] =>
      rw [show utf8DecodeFuel (n + 1) [] = some [] from rfl] at h
      cases h
      simp
    | b :: rest =>
      rw [utf8DecodeFuel] at h
      cases hdec : utf8DecodeOne b rest with
      | none => rw [hdec] at h; exact Option.noConfusion h
      | some pr =>
        obtain ⟨c, rest1⟩ := pr
        rw [hdec, Option.map_eq_some'] at h
        obtain ⟨t1, hd, rfl⟩ := h
        obtain ⟨henc, hsuf, hcp⟩ := utf8DecodeOne_spec hdec
        have hlen : rest1.length ≤ n := by
          have := hsuf.length_le
          simp at hl
          omega
        have hcr1 : 13 ∉ rest1 := fun hx =>
          hcr (List.mem_cons_of_mem b (hsuf.subset hx))
        have hc13 : c ≠ 13 := by
          rcases hcp with rfl | hge
          · exact fun hh => hcr (by simp [hh])
          · omega
        simp only [List.mem_cons, not_or]
        exact ⟨fun hh => hc13 hh.symm, ih rest1 t1 hlen hd hcr1⟩

/-- Decoding bytes free of `0x0D` yields text free of the scalar 13. -/
theorem pyUtf8Decode_no_cr {l t : List Nat} (h : pyUtf8Decode l = some t)
    (hcr : 13 ∉ l) : 13 ∉ t :=
  decodeFuel_no_cr l.length l t (Nat.le_refl _) h hcr

/-- Universal-newline translation is the identity on text without 13. -/
theorem univNewlines_of_no_cr : ∀ l : List Nat, 13 ∉ l → univNewlines l = l := by
  intro l
  induction l with
  | nil => intro _; rfl
  | cons a rest ih =>
    intro h
    have ha : a ≠ 13 := fun hh => h (by simp [hh])
    rw [univNewlines.eq_def]
    simp only [if_neg ha]
    rw [ih (fun hx => h (List.mem_cons_of_mem a hx))]

/-- Name of a path extended by one component. -/
theorem pathName_append (p : FPath) (n : String) : pathName (p ++ [n]) = n := by
  simp [pathName]

/-- Filtering out the entries at `p` does not change a search for a
different path `q`. -/
theorem find?_filter_ne (p q : FPath) (hqp : q ≠ p) :
    ∀ l : List (FPath × Entry),
      List.find? (fun e => decide (e.1 = q))
          (l.filter (fun r => decide (r.1 ≠ p)))
        = List.find? (fun e => decide (e.1 = q)) l := by
  intro l
  induction l with
  | nil => rfl
  | cons a l ih =>
    by_cases ha : a.1 = p
    · have h2 : decide (a.1 = q) = false := by
        rw [decide_eq_false_iff_not, ha]
        exact fun hh => hqp hh.symm
      rw [List.filter_cons,
        if_neg (show ¬ (decide (a.1 ≠ p) = true) from by simp [ha]),
        List.find?_cons, h2]
      exact ih
    · by_cases haq : a.1 = q
      · rw [List.filter_cons,
          if_pos (show decide (a.1 ≠ p) = true from by simpa using ha),
          List.find?_cons, List.find?_cons,
          show decide (a.1 = q) = true from by simpa using haq]
      · rw [List.filter_cons,
          if_pos (show decide (a.1 ≠ p) = true from by simpa using ha),
          List.find?_cons, List.find?_cons,
          show decide (a.1 = q) = false from by simpa using haq]
        exact ih

/-- Lookup after `set`: the stored entry at the written path, the old entry
elsewhere. -/
theorem FS.lookup_set (fs : FS) (p q : FPath) (e : Entry) :
    (fs.set p e).lookup q = if q = p then some e else fs.lookup q := by
  by_cases hqp : q = p
  · subst hqp
    simp only [FS.set, FS.lookup]
    rw [if_pos trivial, List.find?_cons,
      show decide ((q, e).1 = q) = true from by simp]
    rfl
  · simp only [FS.set, FS.lookup, if_neg hqp]
    rw [List.find?_cons,
      show decide ((p, e).1 = q) = false from by
        rw [decide_eq_false_iff_not]
        exact fun hh => hqp hh.symm]
    exact congrArg (Option.map (fun r => r.2)) (find?_filter_ne p q hqp fs.entries)

/-- Reading the path just written returns the written content. -/
theorem FS.readFile_writeFile (fs : FS) (p : FPath) (c : List Nat) :
    (fs.writeFile p c).readFile p = some c := by
  simp [FS.readFile, FS.writeFile, FS.lookup_set]

/-- Growing the filesystem with `mkdirList` never deletes an entry. -/
theorem FS.mkdirList_mono :
    ∀ (l : List FPath) (fs : FS) (q : FPath), (fs.lookup q).isSome →
      ((fs.mkdirList l).lookup q).isSome := by
  intro l
  induction l with
  | nil => intro fs q h; exact h
  | cons a rest ih =>
    intro fs q h
    rw [FS.mkdirList]
    by_cases ha : (fs.lookup a).isSome
    · simp only [if_pos ha]
      exact ih fs q h
    · simp only [if_neg ha]
      refine ih _ q ?_
      rw [FS.lookup_set]
      by_cases hqa : q = a
      · simp [hqa]
      · simpa [hqa] using h

/-- After `mkdirList`, every listed path has an entry. -/
theorem FS.mkdirList_mem :
    ∀ (l : List FPath) (fs : FS) (q : FPath), q ∈ l →
      ((fs.mkdirList l).lookup q).isSome := by
  intro l
  induction l with
  | nil => intro fs q h; cases h
  | cons a rest ih =>
    intro fs q h
    rw [FS.mkdirList]
    rcases List.mem_cons.mp h with rfl | hmem
    · by_cases ha : (fs.lookup q).isSome
      · simp only [if_pos ha]
        exact FS.mkdirList_mono rest fs q ha
      · simp only [if_neg ha]
        refine FS.mkdirList_mono rest _ q ?_
        simp [FS.lookup_set]
    · by_cases ha : (fs.lookup a).isSome
      · simp only [if_pos ha]
        exact ih fs q hmem
      · simp only [if_neg ha]
        exact ih _ q hmem

/-- After `mkdirParents`, every nonempty initial segment of the path has an
entry on disk. -/
theorem FS.mkdirParents_ancestors (fs : FS) (p q : FPath)
    (h : q ∈ ancestorsOf p) : ((fs.mkdirParents p).lookup q).isSome :=
  FS.mkdirList_mem (ancestorsOf p) fs q h

/-- C8: detection reads the whole file when its size is at most
`sample_size` and exactly the first `sample_size` bytes otherwise; a file
smaller than `sample_size` yields the same sample as a call with
`sample_size` equal to the file size; and `encoding_confidence` without a
forced encoding feeds exactly this sample to the detector. -/
theorem sampleBytes_spec (bytes : List Nat) (s : Nat) (_hs : 0 < s)
    (detect : Detector) (fs : FS) (t : ConvTask)
    (henc : t.encoding = none) (hread : fs.readFile t.input = some bytes)
    (hsz : t.sampleSize = s) :
    (bytes.length ≤ s → sampleBytes bytes s = bytes) ∧
    (s < bytes.length → sampleBytes bytes s = bytes.take s) ∧
    (bytes.length < s → sampleBytes bytes s = sampleBytes bytes bytes.length) ∧
    encoding_confidence detect fs t = some (detect (sampleBytes bytes s)) := by
  refine ⟨?_, ?_, ?_, ?_⟩
  · intro h
    rw [sampleBytes, if_pos h]
  · intro h
    rw [sampleBytes, if_neg (by omega)]
  · intro h
    rw [sampleBytes, if_pos (by omega), sampleBytes, if_pos (Nat.le_refl _)]
  · simp [encoding_confidence, henc, strOptTruthy, hread, hsz]

/-- Witness instantiating C8 at a concrete three-byte file with sample
size 5. -/
theorem sampleBytes_spec_witness :
    sampleBytes [1, 2, 3] 5 = [1, 2, 3] ∧
    encoding_confidence (fun _ => (none, 0))
        ⟨[(["a.txt"], Entry.file [1, 2, 3])]⟩ ⟨["a.txt"], ["b.txt"], 5, none⟩
      = some ((fun _ => ((none : Option String), (0 : ℚ)))
          (sampleBytes [1, 2, 3] 5)) :=
  have h := sampleBytes_spec [1, 2, 3] 5 (by decide) (fun _ => (none, 0))
    ⟨[(["a.txt"], Entry.file [1, 2, 3])]⟩ ⟨["a.txt"], ["b.txt"], 5, none⟩
    rfl (by rfl) rfl
  ⟨h.1 (by decide), h.2.2.2⟩

/-- C6: a destination hint with a nonempty suffix outside the allowed set
makes `prepare_output_path` fail with the invalid-extension error, for every
filesystem state (so regardless of existence, including an existing
directory) and every value of the directory-creation flag, touching
nothing. -/
theorem prepare_output_path_disallowed_suffix_fails (fs : FS)
    (srcName : String) (dst : FPath) (create_output_dir : Bool)
    (h1 : pySuffix (pathName dst) ≠ "")
    (h2 : strLower (pySuffix (pathName dst)) ∉ ALLOWED_EXTENSIONS) :
    prepare_output_path fs srcName dst create_output_dir
      = (fs, Except.error ConvError.invalidExtension) := by
  rw [prepare_output_path, if_pos ⟨h1, h2⟩]

/-- Witness instantiating C6 at destination `out.bin` existing as a
directory, with directory creation enabled. -/
theorem prepare_output_path_disallowed_suffix_fails_witness :
    pySuffix (pathName ["out.bin"]) ≠ "" ∧
    strLower (pySuffix (pathName ["out.bin"])) ∉ ALLOWED_EXTENSIONS ∧
    FS.isDir ⟨[(["out.bin"], Entry.dir)]⟩ ["out.bin"] = true ∧
    prepare_output_path ⟨[(["out.bin"], Entry.dir)]⟩ "input.txt" ["out.bin"]
        true
      = (⟨[(["out.bin"], Entry.dir)]⟩, Except.error ConvError.invalidExtension) :=
  ⟨by decide, by decide, by decide,
    prepare_output_path_disallowed_suffix_fails ⟨[(["out.bin"], Entry.dir)]⟩
      "input.txt" ["out.bin"] true (by decide) (by decide)⟩

/-- C7 counterexample: a destination that exists as a directory but whose
name carries a disallowed suffix (`out.bin`) makes `prepare_output_path`
raise the invalid-extension error instead of returning
`directory/<source filename>`. -/
theorem prepare_output_path_dir_disallowed_suffix_cex :
    FS.isDir ⟨[(["out.bin"], Entry.dir)]⟩ ["out.bin"] = true ∧
    prepare_output_path ⟨[(["out.bin"], Entry.dir)]⟩ "input.txt" ["out.bin"]
        false
      = (⟨[(["out.bin"], Entry.dir)]⟩, Except.error ConvError.invalidExtension) ∧
    (prepare_output_path ⟨[(["out.bin"], Entry.dir)]⟩ "input.txt" ["out.bin"]
        false).2
      ≠ Except.ok ["out.bin", "input.txt"] := by
  refine ⟨by decide, rfl, fun h => Except.noConfusion h⟩

/-- C7 as amended: when the destination exists as a directory and its name's
suffix is empty or allowed, `prepare_output_path` returns
`directory/<source filename>` for a validated source name, identically for
both values of the creation flag and with the filesystem unchanged (hence
idempotently on repeated calls). -/
theorem prepare_output_path_existing_dir (fs : FS) (srcName : String)
    (dst : FPath) (create_output_dir : Bool)
    (hdir : fs.isDir dst = true)
    (hsuf : pySuffix (pathName dst) = "" ∨
      strLower (pySuffix (pathName dst)) ∈ ALLOWED_EXTENSIONS)
    (hsrc : strLower (pySuffix srcName) ∈ ALLOWED_EXTENSIONS) :
    prepare_output_path fs srcName dst create_output_dir
      = (fs, Except.ok (dst ++ [srcName])) := by
  have hl : fs.lookup dst = some Entry.dir := of_decide_eq_true hdir
  have hex : fs.pathExists dst = true := by
    rw [FS.pathExists, hl]
    rfl
  rcases hsuf with hsuf | hsuf
  · simp [prepare_output_path, hex, hdir, pathName_append, hsuf, hsrc]
  · simp [prepare_output_path, hex, hdir, pathName_append, hsuf, hsrc]

/-- Witness instantiating the amended C7 at an existing directory `out`
with source name `input.txt`, for the creation flag turned off. -/
theorem prepare_output_path_existing_dir_witness :
    FS.isDir ⟨[(["out"], Entry.dir)]⟩ ["out"] = true ∧
    prepare_output_path ⟨[(["out"], Entry.dir)]⟩ "input.txt" ["out"] false
      = (⟨[(["out"], Entry.dir)]⟩, Except.ok ["out", "input.txt"]) :=
  ⟨by decide,
    prepare_output_path_existing_dir ⟨[(["out"], Entry.dir)]⟩ "input.txt"
      ["out"] false (by decide) (Or.inl (by decide)) (by decide)⟩

/-- C10: a nonexistent destination hint without a suffix, resolved with
directory creation off, makes `prepare_output_path` fail with the
invalid-extension error, but only after running `mkdir(parents=True)` on the
hint's parent, so after the failing call every missing ancestor directory of
the parent exists on disk. -/
theorem prepare_output_path_no_suffix_side_effect (fs : FS)
    (srcName : String) (dst : FPath)
    (hne : fs.pathExists dst = false)
    (hsuf : pySuffix (pathName dst) = "") :
    prepare_output_path fs srcName dst false
      = (fs.mkdirParents dst.dropLast,
          Except.error ConvError.invalidExtension) ∧
    ∀ q ∈ ancestorsOf dst.dropLast,
      (((prepare_output_path fs srcName dst false).1).lookup q).isSome := by
  have h1 : strLower "" ∉ ALLOWED_EXTENSIONS := by decide
  have hmain : prepare_output_path fs srcName dst false
      = (fs.mkdirParents dst.dropLast,
          Except.error ConvError.invalidExtension) := by
    simp [prepare_output_path, hsuf, hne, h1]
  refine ⟨hmain, ?_⟩
  intro q hq
  rw [hmain]
  exact FS.mkdirParents_ancestors fs dst.dropLast q hq

/-- Witness instantiating C10 at the nonexistent hint `a/b/out` on an empty
filesystem: the call fails with the invalid-extension error and the parents
`a` and `a/b` exist afterwards. -/
theorem prepare_output_path_no_suffix_side_effect_witness :
    FS.pathExists ⟨[]⟩ ["a", "b", "out"] = false ∧
    pySuffix (pathName ["a", "b", "out"]) = "" ∧
    prepare_output_path ⟨[]⟩ "input.txt" ["a", "b", "out"] false
      = (FS.mkdirParents ⟨[]⟩ ["a", "b"],
          Except.error ConvError.invalidExtension) ∧
    (((prepare_output_path ⟨[]⟩ "input.txt" ["a", "b", "out"] false).1).lookup
        ["a", "b"]).isSome :=
  have h := prepare_output_path_no_suffix_side_effect ⟨[]⟩ "input.txt"
    ["a", "b", "out"] rfl (by decide)
  ⟨rfl, by decide, h.1, h.2 ["a", "b"] (by decide)⟩

/-- C5: the progress sink is advanced exactly once per task, in the
`finally` of each completed future, so a batch of N tasks advances it
exactly N times regardless of per-task success or failure. -/
theorem batch_processing_progress_count (codecs : Codecs) (detect : Detector)
    (fs : FS) (tasks : List ConvTask) :
    (batch_processing codecs detect fs tasks).2.1 = tasks.length := by
  induction tasks generalizing fs with
  | nil => rfl
  | cons t rest ih => simp [batch_processing, ih]

/-- On every path of `convert` other than the successful write, the
filesystem is returned unchanged: all raises happen before `write_text`. -/
theorem convert_ok_or_fst_eq (codecs : Codecs) (detect : Detector) (fs : FS)
    (t : ConvTask) :
    (convert codecs detect fs t).2 = Except.ok () ∨
      (convert codecs detect fs t).1 = fs := by
  rw [convert]
  repeat' split
  all_goals simp

/-- C3: when `convert` fails with the undetected-encoding error or the
decode error, the filesystem — in particular the file state at the
destination path — is exactly what it was before the call. -/
theorem convert_error_leaves_destination_unchanged (codecs : Codecs)
    (detect : Detector) (fs : FS) (t : ConvTask)
    (h : (convert codecs detect fs t).2
          = Except.error ConvError.encodingUndetected ∨
        (convert codecs detect fs t).2 = Except.error ConvError.decodeError) :
    (convert codecs detect fs t).1 = fs ∧
    ((convert codecs detect fs t).1).lookup t.output = fs.lookup t.output := by
  have hne : (convert codecs detect fs t).2 ≠ Except.ok () := by
    rcases h with h | h <;> rw [h] <;> exact fun hh => Except.noConfusion hh
  rcases convert_ok_or_fst_eq codecs detect fs t with hok | hfs
  · exact absurd hok hne
  · exact ⟨hfs, by rw [hfs]⟩

/-- Witness instantiating C3 at a one-byte file whose detector returns no
label, so `convert` fails with the undetected-encoding error and the
(absent) destination entry is untouched. -/
theorem convert_error_leaves_destination_unchanged_witness :
    (convert (fun _ _ => none) (fun _ => (none, 0))
        ⟨[(["in.txt"], Entry.file [65])]⟩
        ⟨["in.txt"], ["out.txt"], 5, none⟩).2
      = Except.error ConvError.encodingUndetected ∧
    ((convert (fun _ _ => none) (fun _ => (none, 0))
        ⟨[(["in.txt"], Entry.file [65])]⟩
        ⟨["in.txt"], ["out.txt"], 5, none⟩).1).lookup ["out.txt"]
      = FS.lookup ⟨[(["in.txt"], Entry.file [65])]⟩ ["out.txt"] :=
  have h : (convert (fun _ _ => none) (fun _ => (none, 0))
      ⟨[(["in.txt"], Entry.file [65])]⟩
      ⟨["in.txt"], ["out.txt"], 5, none⟩).2
      = Except.error ConvError.encodingUndetected := rfl
  ⟨h, (convert_error_leaves_destination_unchanged (fun _ _ => none)
    (fun _ => (none, 0)) ⟨[(["in.txt"], Entry.file [65])]⟩
    ⟨["in.txt"], ["out.txt"], 5, none⟩ (Or.inl h)).2⟩

/-- Unfolding of `batch_processing` on a nonempty task list. -/
theorem batch_processing_cons (codecs : Codecs) (detect : Detector) (fs : FS)
    (t : ConvTask) (rest : List ConvTask) :
    batch_processing codecs detect fs (t :: rest)
      = ((batch_processing codecs detect (convert codecs detect fs t).1
            rest).1,
         (batch_processing codecs detect (convert codecs detect fs t).1
            rest).2.1 + 1,
         errOf (convert codecs detect fs t).2
           :: (batch_processing codecs detect (convert codecs detect fs t).1
            rest).2.2) := rfl

/-- A batch produces one outcome per task. -/
theorem batch_outcomes_length (codecs : Codecs) (detect : Detector) :
    ∀ (tasks : List ConvTask) (fs : FS),
      (batch_processing codecs detect fs tasks).2.2.length = tasks.length := by
  intro tasks
  induction tasks with
  | nil => intro fs; rfl
  | cons t rest ih =>
    intro fs
    rw [batch_processing_cons]
    simp [ih]

/-- A batch over a concatenation processes the first part, then the second
from the resulting state; the outcome lists concatenate. -/
theorem batch_processing_append (codecs : Codecs) (detect : Detector) :
    ∀ (l1 l2 : List ConvTask) (fs : FS),
      (batch_processing codecs detect fs (l1 ++ l2)).2.2
        = (batch_processing codecs detect fs l1).2.2 ++
          (batch_processing codecs detect
            (batch_processing codecs detect fs l1).1 l2).2.2 ∧
      (batch_processing codecs detect fs (l1 ++ l2)).1
        = (batch_processing codecs detect
            (batch_processing codecs detect fs l1).1 l2).1 := by
  intro l1
  induction l1 with
  | nil => intro l2 fs; exact ⟨rfl, rfl⟩
  | cons t rest ih =>
    intro l2 fs
    obtain ⟨h1, h2⟩ := ih l2 (convert codecs detect fs t).1
    rw [List.cons_append, batch_processing_cons, batch_processing_cons]
    constructor
    · simp [h1]
    · simp [h2]

/-- C4: a task whose `convert` raises, at any position in the task list, is
recorded as a failed outcome in place; every sibling before and after it is
still processed and the batch completes with one outcome per task. -/
theorem batch_processing_failure_isolated (codecs : Codecs)
    (detect : Detector) (fs : FS) (l1 : List ConvTask) (t : ConvTask)
    (l2 : List ConvTask) (e : ConvError)
    (h : (convert codecs detect (batch_processing codecs detect fs l1).1
        t).2 = Except.error e) :
    (batch_processing codecs detect fs (l1 ++ t :: l2)).2.2
      = (batch_processing codecs detect fs l1).2.2 ++ some e ::
        (batch_processing codecs detect
          (convert codecs detect (batch_processing codecs detect fs l1).1
            t).1 l2).2.2 ∧
    (batch_processing codecs detect fs (l1 ++ t :: l2)).2.2.length
      = l1.length + 1 + l2.length := by
  obtain ⟨h1, -⟩ := batch_processing_append codecs detect l1 (t :: l2) fs
  have hcons := batch_processing_cons codecs detect
    (batch_processing codecs detect fs l1).1 t l2
  constructor
  · rw [h1, hcons]
    simp [errOf, h]
  · rw [batch_outcomes_length]
    simp
    omega

/-- Witness instantiating C4 with a failing head task followed by one
sibling: the failure is recorded as the first outcome and the sibling is
still processed. -/
theorem batch_processing_failure_isolated_witness :
    (convert (fun _ _ => none) (fun _ => (none, 0))
        (batch_processing (fun _ _ => none) (fun _ => (none, 0))
          ⟨[(["in.txt"], Entry.file [65])]⟩ []).1
        ⟨["in.txt"], ["out.txt"], 5, none⟩).2
      = Except.error ConvError.encodingUndetected ∧
    (batch_processing (fun _ _ => none) (fun _ => (none, 0))
        ⟨[(["in.txt"], Entry.file [65])]⟩
        ([] ++ ⟨["in.txt"], ["out.txt"], 5, none⟩ ::
          [⟨["in.txt"], ["out2.txt"], 5, none⟩])).2.2.length = 0 + 1 + 1 :=
  have h : (convert (fun _ _ => none) (fun _ => (none, 0))
      (batch_processing (fun _ _ => none) (fun _ => (none, 0))
        ⟨[(["in.txt"], Entry.file [65])]⟩ []).1
      ⟨["in.txt"], ["out.txt"], 5, none⟩).2
      = Except.error ConvError.encodingUndetected := rfl
  ⟨h, (batch_processing_failure_isolated (fun _ _ => none)
    (fun _ => (none, 0)) ⟨[(["in.txt"], Entry.file [65])]⟩ []
    ⟨["in.txt"], ["out.txt"], 5, none⟩ [⟨["in.txt"], ["out2.txt"], 5, none⟩]
    ConvError.encodingUndetected h).2⟩

/-- C2: evaluation at the failing input.  With source a single file
`in.txt`, destination directory `out` and forced encoding `utf-8`,
`make_converters` takes the single-file branch, which omits the
`encoding=encoding` argument, so the constructed task carries no forced
label and `encoding_confidence` runs detection on sampled bytes instead of
returning the label with confidence 1.0. -/
theorem make_converters_single_file_drops_encoding :
    (make_converters
        ⟨[(["in.txt"], Entry.file [104, 105]), (["out"], Entry.dir)]⟩
        ["in.txt"] ["out"] 100 false (some "utf-8")).2
      = Except.ok [⟨["in.txt"], ["out", "in.txt"], 100, none⟩] ∧
    (⟨["in.txt"], ["out", "in.txt"], 100, none⟩ : ConvTask).encoding
      ≠ some "utf-8" ∧
    encoding_confidence (fun _ => (none, 0))
        ⟨[(["in.txt"], Entry.file [104, 105]), (["out"], Entry.dir)]⟩
        ⟨["in.txt"], ["out", "in.txt"], 100, none⟩
      = some (none, 0) :=
  ⟨rfl, fun h => Option.noConfusion h, rfl⟩

/-- Forced-encoding bypass inside `encoding_confidence`: with a truthy
forced label the result is the label with confidence 1.0, independent of
the detector and of the filesystem, so no bytes are sampled. -/
theorem encoding_confidence_forced (detect : Detector) (fs : FS)
    (t : ConvTask) (ht : strOptTruthy t.encoding = true) :
    encoding_confidence detect fs t = some (t.encoding, 1) := by
  rw [encoding_confidence, if_pos ht]

/-- Witness instantiating the forced-encoding bypass at a concrete task. -/
theorem encoding_confidence_forced_witness :
    strOptTruthy (some "utf-8") = true ∧
    encoding_confidence (fun _ => (none, 0)) ⟨[]⟩
        ⟨["in.txt"], ["out.txt"], 5, some "utf-8"⟩
      = some (some "utf-8", 1) :=
  ⟨rfl, encoding_confidence_forced (fun _ => (none, 0)) ⟨[]⟩
    ⟨["in.txt"], ["out.txt"], 5, some "utf-8"⟩ rfl⟩

/-- A validated input path is returned unchanged. -/
theorem validate_input_file_ok {fs : FS} {p q : FPath}
    (h : validate_input_file fs p = Except.ok q) : q = p := by
  rw [validate_input_file] at h
  split_ifs at h
  all_goals first
    | exact Except.noConfusion h
    | (cases h; rfl)

/-- A successfully constructed converter records the given input path and
the given forced encoding. -/
theorem mkConverter_ok_fields {fs : FS} {input_file output_file : FPath}
    {s : Nat} {cd : Bool} {enc : Option String} {t : ConvTask}
    (h : (mkConverter fs input_file output_file s cd enc).2
      = Except.ok t) :
    t.input = input_file ∧ t.encoding = enc := by
  rw [mkConverter] at h
  cases hv : validate_input_file fs input_file with
  | error e =>
    simp only [hv] at h
    exact Except.noConfusion h
  | ok inp =>
    simp only [hv] at h
    cases hp : (prepare_output_path fs (pathName inp) output_file cd).2 with
    | error e =>
      simp only [hp] at h
      exact Except.noConfusion h
    | ok out =>
      simp only [hp, Except.ok.injEq] at h
      rw [← h]
      exact ⟨validate_input_file_ok hv, rfl⟩

/-- The tasks a successful directory build produces correspond one-to-one,
in order, to the file list it was given. -/
theorem makeList_ok_inputs (dst : FPath) (s : Nat) (cd : Bool)
    (enc : Option String) :
    ∀ (files : List FPath) (fs : FS) (ts : List ConvTask),
      (makeList fs dst s cd enc files).2 = Except.ok ts →
      ts.map (fun t => t.input) = files := by
  intro files
  induction files with
  | nil =>
    intro fs ts h
    simp only [makeList, Except.ok.injEq] at h
    rw [← h]
    rfl
  | cons f rest ih =>
    intro fs ts h
    rw [makeList] at h
    cases hm : (mkConverter fs f dst s cd enc).2 with
    | error e =>
      simp only [hm] at h
      exact Except.noConfusion h
    | ok t =>
      simp only [hm] at h
      cases hrec : (makeList (mkConverter fs f dst s cd enc).1 dst s cd enc
          rest).2 with
      | error e =>
        simp only [hrec] at h
        exact Except.noConfusion h
      | ok ts2 =>
        simp only [hrec, Except.ok.injEq] at h
        rw [← h]
        simp only [List.map_cons, (mkConverter_ok_fields hm).1,
          ih (mkConverter fs f dst s cd enc).1 ts2 hrec]

/-- C9 as amended: for a directory source, a successful `make_converters`
yields exactly one task per entry of the single directory level whose name
matches the literal glob pattern `*.txt` — a case-sensitive match on POSIX —
in listing order, and no tasks for any other entry. -/
theorem make_converters_dir_tasks_glob (fs : FS) (src dst : FPath)
    (s : Nat) (cd : Bool) (enc : Option String) (ts : List ConvTask)
    (hdir : fs.isDir src = true)
    (h : (make_converters fs src dst s cd enc).2 = Except.ok ts) :
    ts.map (fun t => t.input) = globTxt fs src := by
  rw [make_converters, if_pos hdir] at h
  exact makeList_ok_inputs dst s cd enc (globTxt fs src) fs ts h

/-- Witness instantiating the amended C9 at a directory holding `a.txt`:
exactly one task is built and its input is the glob's single match. -/
theorem make_converters_dir_tasks_glob_witness :
    FS.isDir ⟨[(["d"], Entry.dir), (["d", "a.txt"], Entry.file [65]),
        (["o"], Entry.dir)]⟩ ["d"] = true ∧
    ([(⟨["d", "a.txt"], ["o", "a.txt"], 100, none⟩ : ConvTask)].map
        (fun t => t.input))
      = globTxt ⟨[(["d"], Entry.dir), (["d", "a.txt"], Entry.file [65]),
          (["o"], Entry.dir)]⟩ ["d"] :=
  ⟨rfl, make_converters_dir_tasks_glob
    ⟨[(["d"], Entry.dir), (["d", "a.txt"], Entry.file [65]),
      (["o"], Entry.dir)]⟩
    ["d"] ["o"] 100 false none
    [⟨["d", "a.txt"], ["o", "a.txt"], 100, none⟩] rfl rfl⟩

/-- C9 counterexample: a directory whose only entry is `A.TXT` — allowed
case-insensitively, as the claim reads — produces no task at all, because
`path.glob("*.txt")` matches case-sensitively on POSIX. -/
theorem make_converters_upper_ext_skipped_cex :
    strLower (pySuffix (pathName ["d", "A.TXT"])) ∈ ALLOWED_EXTENSIONS ∧
    FS.children ⟨[(["d"], Entry.dir), (["d", "A.TXT"], Entry.file [65]),
        (["o"], Entry.dir)]⟩ ["d"] = [["d", "A.TXT"]] ∧
    FS.isDir ⟨[(["d"], Entry.dir), (["d", "A.TXT"], Entry.file [65]),
        (["o"], Entry.dir)]⟩ ["d"] = true ∧
    (make_converters ⟨[(["d"], Entry.dir), (["d", "A.TXT"], Entry.file [65]),
        (["o"], Entry.dir)]⟩ ["d"] ["o"] 100 false none).2
      = Except.ok [] :=
  ⟨by decide, by decide, rfl, rfl⟩

/-- C1 counterexample: the source bytes `[97, 13]` (`"a\r"`) are valid
UTF-8, yet converting with forced `utf-8` succeeds and writes `[97, 10]`:
`read_text` performs universal-newline translation, turning the lone
carriage return into a line feed, so the destination is not byte-identical
to the source. -/
theorem convert_forced_utf8_not_byte_identical_cex :
    pyUtf8Decode [97, 13] = some [97, 13] ∧
    errOf (convert
        (fun enc bytes => if enc = "utf-8" then pyUtf8Decode bytes else none)
        (fun _ => (none, 0)) ⟨[(["in.txt"], Entry.file [97, 13])]⟩
        ⟨["in.txt"], ["out.txt"], 5, some "utf-8"⟩).2 = none ∧
    ((convert
        (fun enc bytes => if enc = "utf-8" then pyUtf8Decode bytes else none)
        (fun _ => (none, 0)) ⟨[(["in.txt"], Entry.file [97, 13])]⟩
        ⟨["in.txt"], ["out.txt"], 5, some "utf-8"⟩).1).readFile ["out.txt"]
      = some [97, 10] ∧
    [97, 10] ≠ [97, 13] :=
  ⟨by decide, rfl, by decide, by decide⟩

/-- C1 as amended: for a source whose bytes are valid UTF-8 and contain no
carriage-return byte `0x0D`, converting with forced `utf-8` writes a
destination byte-identical to the source (decode, identity newline
translation, re-encode). -/
theorem convert_forced_utf8_roundtrip_no_cr (codecs : Codecs)
    (detect : Detector) (fs : FS) (t : ConvTask) (bytes : List Nat)
    (henc : t.encoding = some "utf-8")
    (hcod : codecs "utf-8" = pyUtf8Decode)
    (hread : fs.readFile t.input = some bytes)
    (hdec : (pyUtf8Decode bytes).isSome)
    (hcr : 13 ∉ bytes) :
    (convert codecs detect fs t).2 = Except.ok () ∧
    ((convert codecs detect fs t).1).readFile t.output = some bytes := by
  obtain ⟨text, htext⟩ := Option.isSome_iff_exists.mp hdec
  have henc_conf : encoding_confidence detect fs t
      = some (some "utf-8", 1) := by
    rw [encoding_confidence, henc]
    rfl
  have hwrite : convert codecs detect fs t
      = (fs.writeFile t.output (utf8Encode (univNewlines text)),
          Except.ok ()) := by
    rw [convert, henc_conf, hread]
    simp only [show strOptTruthy (some "utf-8") = true from rfl, not_true,
      if_false, hcod, htext]
  have h13 : 13 ∉ text := pyUtf8Decode_no_cr htext hcr
  refine ⟨by rw [hwrite], ?_⟩
  rw [hwrite]
  simp only [univNewlines_of_no_cr text h13, utf8Encode_pyUtf8Decode htext,
    FS.readFile_writeFile]

/-- Witness instantiating the amended C1 at the two-byte CR-free source
`"hi"`: the destination receives exactly the source bytes. -/
theorem convert_forced_utf8_roundtrip_no_cr_witness :
    (convert
        (fun enc bytes => if enc = "utf-8" then pyUtf8Decode bytes else none)
        (fun _ => (none, 0)) ⟨[(["in.txt"], Entry.file [104, 105])]⟩
        ⟨["in.txt"], ["out.txt"], 5, some "utf-8"⟩).2 = Except.ok () ∧
    ((convert
        (fun enc bytes => if enc = "utf-8" then pyUtf8Decode bytes else none)
        (fun _ => (none, 0)) ⟨[(["in.txt"], Entry.file [104, 105])]⟩
        ⟨["in.txt"], ["out.txt"], 5, some "utf-8"⟩).1).readFile ["out.txt"]
      = some [104, 105] :=
  convert_forced_utf8_roundtrip_no_cr
    (fun enc bytes => if enc = "utf-8" then pyUtf8Decode bytes else none)
    (fun _ => (none, 0)) ⟨[(["in.txt"], Entry.file [104, 105])]⟩
    ⟨["in.txt"], ["out.txt"], 5, some "utf-8"⟩ [104, 105] rfl
    (by funext b; simp) rfl (by decide) (by decide)

end UTF8Conv
